import Mathlib

/-!
Shallow embedding of `random_primary.py` (django-randomprimary).

The repository is a single Django abstract model class `RandomPrimaryIdModel`
whose `save()` method allocates a random-looking primary key: it generates a
candidate key, attempts the insert (relying on the database's uniqueness
constraint on the `id` column for conflict detection), classifies
`IntegrityError`s by message text, retries on key-column collisions with a
per-length attempt budget equal to the key length, and grows the key length
from `CRYPT_KEY_LEN_MIN` to `CRYPT_KEY_LEN_MAX` before giving up.

Modelling choices:
* `random.choice` consumes values from an oracle `rnd : Nat → Nat`, one
  position per call, interpreted modulo the alphabet size.
* The database (`super().save(...)`) is a response function from the global
  attempt index, the record's `id` at call time, and the `force_insert`
  entry of `kwargs`, to either success or an `IntegrityError` carrying its
  Python `args` tuple (a list of message strings, modelled as `List Char`).
* Side effects (`transaction.savepoint`, the insert call itself,
  `transaction.savepoint_rollback`) are recorded in an event trace;
  savepoint ids are handed out by a fresh counter.  A rollback of the
  enclosing transaction has an event constructor of its own so that its
  absence from every trace is a statement, not a tautology of the model.
* The `while ... else` loop is a fuel-indexed recursion (`none` = fuel ran
  out; the loop itself does not terminate for `CRYPT_KEY_LEN_MIN = 0` under
  persistent collisions, so totality needs the fuel).
-/

namespace RPM

/-- `string.ascii_letters`: lowercase then uppercase letters. -/
def asciiLetters : List Char :=
  "abcdefghijklmnopqrstuvwxyzABCDEFGHIJKLMNOPQRSTUVWXYZ".toList

/-- `string.digits`. -/
def asciiDigits : List Char := "0123456789".toList

/-- The per-model configuration surface: `KEYPREFIX`, `KEYSUFFIX`,
`CRYPT_KEY_LEN_MIN`, `CRYPT_KEY_LEN_MAX`, `_FIRSTIDCHAR`, `_IDCHARS`. -/
structure Config where
  keyPre : List Char
  keySuf : List Char
  lenMin : Nat
  lenMax : Nat
  firstChars : List Char
  restChars : List Char
  deriving Repr, DecidableEq

/-- The class-level defaults of `RandomPrimaryIdModel`. -/
def defaultConfig : Config :=
  ⟨[], [], 5, 9, asciiLetters, asciiDigits ++ asciiLetters⟩

/-- `random.choice(chars)`, reading one value `r` from the random oracle.
(Python raises on an empty sequence; the default is irrelevant whenever the
alphabet is non-empty.) -/
def choiceOf (chars : List Char) (r : Nat) : Char :=
  chars.getD (r % chars.length) 'A'

/-- `_make_random_key(key_len)`: `KEYPREFIX + random.choice(_FIRSTIDCHAR) +
''.join([random.choice(_IDCHARS) for _ in xrange(0, key_len-1)]) + KEYSUFFIX`.
`pos` is the oracle position of the first `random.choice` call; the call
consumes `key_len` oracle values in total. -/
def makeRandomKey (cfg : Config) (rnd : Nat → Nat) (pos : Nat) (keyLen : Nat) :
    List Char :=
  cfg.keyPre ++
    choiceOf cfg.firstChars (rnd pos) ::
      ((List.range (keyLen - 1)).map fun t => choiceOf cfg.restChars (rnd (pos + 1 + t))) ++
    cfg.keySuf

/-- A single quote character (written by code point to keep the database
error-message markers literal). -/
def sq : Char := Char.ofNat 39

/-- MySQL marker: the message ends with `for key 'PRIMARY'`. -/
def mysqlMark : List Char := "for key ".toList ++ [sq] ++ "PRIMARY".toList ++ [sq]

/-- SQLite marker: the message equals `column id is not unique`. -/
def sqliteMark : List Char := "column id is not unique".toList

/-- Postgres marker: the message contains `Key (id)=`. -/
def pgMark : List Char := "Key (id)=".toList

/-- Substring containment (`needle in hay` on Python strings). -/
def hasInfix (needle : List Char) : List Char → Bool
  | [] => needle.isEmpty
  | c :: rest => needle.isPrefixOf (c :: rest) || hasInfix needle rest

/-- The message test of the `except IntegrityError` handler:
`msg.endswith("for key 'PRIMARY'") or msg == "column id is not unique" or
"Key (id)=" in msg`. -/
def isKeyCollMsg (msg : List Char) : Bool :=
  mysqlMark.isSuffixOf msg || msg == sqliteMark || hasInfix pgMark msg

/-- `msg = e.args[-1]` followed by the message test.  (Python would raise
`IndexError` on an empty `args`; an `IntegrityError` always carries at least
one argument, and on `[]` this classifier answers `false`.) -/
def keyCollArgs (args : List (List Char)) : Bool :=
  isKeyCollMsg (args.getLastD [])

/-- Outcome of one `super().save(...)` call: success, or a raised
`IntegrityError` with its `args` tuple. -/
inductive InsRes where
  | ok : InsRes
  | integrityError (args : List (List Char)) : InsRes
  deriving Repr, DecidableEq

/-- The database response: a function of the global attempt index (number of
prior `super().save` calls in this `save()` invocation), the record's `id`
at call time, and the `force_insert` entry of `kwargs` (`none` = absent). -/
def StoreFun : Type := Nat → Option (List Char) → Option Bool → InsRes

/-- Observable side effects of one `save()` call, in order. -/
inductive Event where
  | savepoint (sid : Nat)
  | insert (id : Option (List Char)) (forceIns : Option Bool)
  | rollbackSp (sid : Nat)
  | rollbackEnclosing
  deriving Repr, DecidableEq

/-- The mutable per-record state `save()` touches: `self.id` (`none` or the
empty string are both falsy) and `self._retry_count` (set to 0 in
`__init__`, incremented on every key collision, never reset by `save`). -/
structure SaveState where
  id : Option (List Char)
  retryCount : Nat
  deriving Repr, DecidableEq

/-- `__init__`: `self._retry_count = 0` (the id is whatever the caller
passed, typically unset). -/
def initRecord (id0 : Option (List Char)) : SaveState := ⟨id0, 0⟩

/-- Python truthiness of `self.id`: `None` and `""` are falsy. -/
def truthyId : Option (List Char) → Bool
  | none => false
  | some s => !s.isEmpty

/-- How a `save()` call ends: normal return, a re-raised store failure, or
the `IntegrityError` raised on keyspace exhaustion. -/
inductive Outcome where
  | ok
  | raised (args : List (List Char))
  | exhausted (args : List (List Char))
  deriving Repr, DecidableEq

/-- The message of the exhaustion error:
`"Could not produce unique ID for model of type %s" % type(self)`. -/
def exhaustMsg (ty : List Char) : List Char :=
  "Could not produce unique ID for model of type ".toList ++ ty

/-- Result of a terminating `save()` call: outcome, final record state, and
the event trace. -/
structure RunResult where
  outcome : Outcome
  st : SaveState
  events : List Event
  deriving Repr, DecidableEq

/-- The `while try_key_len <= self.CRYPT_KEY_LEN_MAX` loop of `save()`.
Arguments after the fuel: global attempt index, random-oracle position,
`try_key_len`, `try_since_last_key_len_increase`, the `force_insert` entry
of `kwargs`, the record state, and the next fresh savepoint id. -/
def saveLoop (cfg : Config) (rnd : Nat → Nat) (store : StoreFun) (ty : List Char) :
    Nat → Nat → Nat → Nat → Nat → Option Bool → SaveState → Nat → Option RunResult
  | 0, _, _, _, _, _, _, _ => none
  | fuel + 1, i, pos, tryKeyLen, trySince, _kw, st, sidCtr =>
    if tryKeyLen ≤ cfg.lenMax then
      -- _id = self._make_random_key(try_key_len); sid = transaction.savepoint()
      let key := makeRandomKey cfg rnd pos tryKeyLen
      -- kwargs['force_insert'] = True; self.id = _id; super().save(*args, **kwargs)
      let st' : SaveState := { st with id := some key }
      match store i (some key) (some true) with
      | InsRes.ok =>
          -- break: success, loop exits without running the else clause
          some ⟨Outcome.ok, st',
                [Event.savepoint sidCtr, Event.insert (some key) (some true)]⟩
      | InsRes.integrityError args =>
          if keyCollArgs args then
            -- transaction.savepoint_rollback(sid); self._retry_count += 1;
            -- try_since_last_key_len_increase += 1; maybe grow the length
            let st2 : SaveState := { st' with retryCount := st'.retryCount + 1 }
            let next : Nat × Nat :=
              if trySince + 1 == tryKeyLen then (tryKeyLen + 1, 0)
              else (tryKeyLen, trySince + 1)
            match saveLoop cfg rnd store ty fuel (i + 1) (pos + tryKeyLen)
                next.1 next.2 (some true) st2 (sidCtr + 1) with
            | none => none
            | some r =>
                some ⟨r.outcome, r.st,
                      Event.savepoint sidCtr :: Event.insert (some key) (some true) ::
                        Event.rollbackSp sidCtr :: r.events⟩
          else
            -- some other IntegrityError: raise e (no rollback, id keeps the candidate)
            some ⟨Outcome.raised args, st',
                  [Event.savepoint sidCtr, Event.insert (some key) (some true)]⟩
    else
      -- while/else: out of attempts; self.id = None; raise IntegrityError(...)
      some ⟨Outcome.exhausted [exhaustMsg ty], { st with id := none }, []⟩

/-- `save(*args, **kwargs)`.  A record that already carries a truthy id goes
straight to `super().save` with the caller's `kwargs`; otherwise the
allocation loop runs from `(CRYPT_KEY_LEN_MIN, 0)` with fresh counters
(except `self._retry_count`, which keeps its current value). -/
def save (cfg : Config) (rnd : Nat → Nat) (store : StoreFun) (ty : List Char)
    (kw : Option Bool) (st : SaveState) (fuel : Nat) : Option RunResult :=
  if truthyId st.id then
    match store 0 st.id kw with
    | InsRes.ok => some ⟨Outcome.ok, st, [Event.insert st.id kw]⟩
    | InsRes.integrityError args => some ⟨Outcome.raised args, st, [Event.insert st.id kw]⟩
  else
    saveLoop cfg rnd store ty fuel 0 0 cfg.lenMin 0 kw st 0

/-! ### Trace observations -/

/-- Is the event an insert attempt (a `super().save` call)? -/
def isInsEv : Event → Bool
  | Event.insert _ _ => true
  | _ => false

/-- Is the event a savepoint rollback? -/
def isRbEv : Event → Bool
  | Event.rollbackSp _ => true
  | _ => false

/-- Number of insert attempts in a trace. -/
def countInserts (es : List Event) : Nat := (es.filter isInsEv).length

/-- Number of savepoint rollbacks in a trace. -/
def countRb (es : List Event) : Nat := (es.filter isRbEv).length

/-- The lengths of the keys passed to the insert attempts, in order. -/
def insertLens (es : List Event) : List Nat :=
  es.filterMap fun e =>
    match e with
    | Event.insert (some k) _ => some k.length
    | _ => none

/-- A trace is well scoped when it is a sequence of collision blocks
`savepoint s; insert; rollbackSp s` — each rollback immediately follows the
insert of its own attempt and names that attempt's savepoint — optionally
ending in a final `savepoint; insert` (success or fatal error) or a bare
`insert` (pass-through for a pre-keyed record), and never touches the
enclosing transaction. -/
def wellScoped : List Event → Bool
  | [] => true
  | [Event.insert _ _] => true
  | [Event.savepoint _, Event.insert _ _] => true
  | Event.savepoint s :: Event.insert _ _ :: Event.rollbackSp s' :: rest =>
      s == s' && wellScoped rest
  | _ => false

/-! ### The deterministic attempt schedule under persistent collisions -/

/-- Auxiliary recursion for `budgetFrom`, structural in the number `n` of
key lengths still available (`n = M + 1 - L`). -/
def budgetFromAux : Nat → Nat → Nat → List Nat
  | 0, _, _ => []
  | n + 1, L, c => List.replicate (L - c) L ++ budgetFromAux n (L + 1) 0

/-- The key lengths of the remaining attempts when the loop stands at length
`L` with `c` collisions already counted at that length: `L - c` more
attempts at length `L`, then `k` attempts at each length `k` up to `M`. -/
def budgetFrom (M L c : Nat) : List Nat :=
  budgetFromAux (M + 1 - L) L c

/-- `k` copies of `k`, for each `k` in the list: the spec's per-length
attempt budget. -/
def repeatBudget (ks : List Nat) : List Nat :=
  ks.foldr (fun k acc => List.replicate k k ++ acc) []

/-- A store stub that reports a key-column uniqueness violation on every
attempt. -/
def alwaysColl (store : StoreFun) : Prop :=
  ∀ n k f, ∃ args, store n k f = InsRes.integrityError args ∧ keyCollArgs args = true

/-- Concrete store: every attempt fails with the SQLite key-column message. -/
def collStore : StoreFun := fun _ _ _ => InsRes.integrityError [sqliteMark]

/-- Concrete store: every attempt succeeds. -/
def okStore : StoreFun := fun _ _ _ => InsRes.ok

/-- A uniqueness-violation message about a column other than `id`. -/
def otherMsg : List Char := "UNIQUE constraint failed: app_item.email".toList

/-- Concrete store: every attempt fails with a non-key uniqueness violation. -/
def fatalStore : StoreFun := fun _ _ _ => InsRes.integrityError [otherMsg]

/-- Concrete store: a key collision on the first attempt, success afterwards. -/
def collThenOkStore : StoreFun := fun n _ _ =>
  if n = 0 then InsRes.integrityError [sqliteMark] else InsRes.ok

/-- Concrete store: a key collision on the first attempt, a non-key
uniqueness violation afterwards. -/
def collThenFatalStore : StoreFun := fun n _ _ =>
  if n = 0 then InsRes.integrityError [sqliteMark] else InsRes.integrityError [otherMsg]

/-- A small configuration (`CRYPT_KEY_LEN_MIN = CRYPT_KEY_LEN_MAX = 1`) for
concrete runs. -/
def cexConfig : Config := ⟨[], [], 1, 1, asciiLetters, asciiDigits ++ asciiLetters⟩

/-- A small configuration with lengths 1..2 for concrete retry runs. -/
def c7Config : Config := ⟨[], [], 1, 2, asciiLetters, asciiDigits ++ asciiLetters⟩

end RPM

namespace RPM

/-! ### Basic lemmas about the key generator and the attempt schedule -/

theorem makeRandomKey_length (cfg : Config) (rnd : Nat → Nat) (pos L : Nat) (hL : 1 ≤ L) :
    (makeRandomKey cfg rnd pos L).length = cfg.keyPre.length + L + cfg.keySuf.length := by
  simp only [makeRandomKey, List.length_append, List.length_cons, List.length_map,
    List.length_range]
  omega

theorem budgetFrom_stop (M L c : Nat) (h : M < L) : budgetFrom M L c = [] := by
  unfold budgetFrom
  rw [Nat.sub_eq_zero_of_le (by omega)]
  rfl

theorem budgetFrom_step (M L c : Nat) (h : L ≤ M) :
    budgetFrom M L c = List.replicate (L - c) L ++ budgetFrom M (L + 1) 0 := by
  unfold budgetFrom
  have e1 : M + 1 - L = (M + 1 - (L + 1)) + 1 := by omega
  rw [e1]
  rfl

theorem budgetFrom_cons_grow (M L c : Nat) (h : L ≤ M) (hc : c + 1 = L) :
    budgetFrom M L c = L :: budgetFrom M (L + 1) 0 := by
  rw [budgetFrom_step M L c h]
  have h1 : L - c = 1 := by omega
  rw [h1]
  rfl

theorem budgetFrom_cons_stay (M L c : Nat) (h : L ≤ M) (hc : c + 1 < L) :
    budgetFrom M L c = L :: budgetFrom M L (c + 1) := by
  rw [budgetFrom_step M L c h, budgetFrom_step M L (c + 1) h]
  have h1 : L - c = (L - (c + 1)) + 1 := by omega
  rw [h1, List.replicate_succ]
  rfl

theorem repeatBudget_cons (k : Nat) (ks : List Nat) :
    repeatBudget (k :: ks) = List.replicate k k ++ repeatBudget ks := rfl

theorem budgetFrom_zero_eq (M : Nat) :
    ∀ n L, M + 1 - L = n → budgetFrom M L 0 = repeatBudget (List.range' L n) := by
  intro n
  induction n with
  | zero =>
    intro L h
    rw [budgetFrom_stop M L 0 (by omega)]
    rfl
  | succ m ih =>
    intro L h
    have hLM : L ≤ M := by omega
    rw [budgetFrom_step M L 0 hLM, List.range'_succ, repeatBudget_cons, Nat.sub_zero,
      ih (L + 1) (by omega)]

theorem repeatBudget_length (ks : List Nat) : (repeatBudget ks).length = ks.sum := by
  induction ks with
  | nil => rfl
  | cons k ks ih => simp [repeatBudget_cons, ih]

theorem budgetFrom_length (M L : Nat) :
    (budgetFrom M L 0).length = (List.range' L (M + 1 - L)).sum := by
  rw [budgetFrom_zero_eq M (M + 1 - L) L rfl, repeatBudget_length]

/-! ### Trace observation lemmas -/

@[simp] theorem insertLens_nil : insertLens [] = [] := rfl

@[simp] theorem insertLens_savepoint (s : Nat) (es : List Event) :
    insertLens (Event.savepoint s :: es) = insertLens es := rfl

@[simp] theorem insertLens_insert (k : List Char) (f : Option Bool) (es : List Event) :
    insertLens (Event.insert (some k) f :: es) = k.length :: insertLens es := rfl

@[simp] theorem insertLens_rollbackSp (s : Nat) (es : List Event) :
    insertLens (Event.rollbackSp s :: es) = insertLens es := rfl

@[simp] theorem countInserts_nil : countInserts [] = 0 := rfl

@[simp] theorem countInserts_savepoint (s : Nat) (es : List Event) :
    countInserts (Event.savepoint s :: es) = countInserts es := rfl

@[simp] theorem countInserts_insert (k : Option (List Char)) (f : Option Bool) (es : List Event) :
    countInserts (Event.insert k f :: es) = countInserts es + 1 := by
  simp [countInserts, isInsEv, List.filter]

@[simp] theorem countInserts_rollbackSp (s : Nat) (es : List Event) :
    countInserts (Event.rollbackSp s :: es) = countInserts es := rfl

@[simp] theorem countRb_nil : countRb [] = 0 := rfl

@[simp] theorem countRb_savepoint (s : Nat) (es : List Event) :
    countRb (Event.savepoint s :: es) = countRb es := rfl

@[simp] theorem countRb_insert (k : Option (List Char)) (f : Option Bool) (es : List Event) :
    countRb (Event.insert k f :: es) = countRb es := rfl

@[simp] theorem countRb_rollbackSp (s : Nat) (es : List Event) :
    countRb (Event.rollbackSp s :: es) = countRb es + 1 := by
  simp [countRb, isRbEv, List.filter]

theorem wellScoped_block (s : Nat) (k : Option (List Char)) (f : Option Bool) (es : List Event) :
    wellScoped (Event.savepoint s :: Event.insert k f :: Event.rollbackSp s :: es) =
      wellScoped es := by
  simp [wellScoped]

/-! ### One-step unfolding lemmas for the allocation loop -/

theorem saveLoop_exhaust (cfg : Config) (rnd : Nat → Nat) (store : StoreFun) (ty : List Char)
    (f i pos L c : Nat) (kw : Option Bool) (st : SaveState) (sid : Nat)
    (h : cfg.lenMax < L) :
    saveLoop cfg rnd store ty (f + 1) i pos L c kw st sid =
      some ⟨Outcome.exhausted [exhaustMsg ty], ⟨none, st.retryCount⟩, []⟩ := by
  simp only [saveLoop]
  rw [if_neg (by omega)]

theorem saveLoop_ok (cfg : Config) (rnd : Nat → Nat) (store : StoreFun) (ty : List Char)
    (f i pos L c : Nat) (kw : Option Bool) (st : SaveState) (sid : Nat)
    (h : L ≤ cfg.lenMax)
    (hs : store i (some (makeRandomKey cfg rnd pos L)) (some true) = InsRes.ok) :
    saveLoop cfg rnd store ty (f + 1) i pos L c kw st sid =
      some ⟨Outcome.ok, ⟨some (makeRandomKey cfg rnd pos L), st.retryCount⟩,
        [Event.savepoint sid, Event.insert (some (makeRandomKey cfg rnd pos L)) (some true)]⟩ := by
  simp only [saveLoop]
  rw [if_pos h, hs]

theorem saveLoop_fatal (cfg : Config) (rnd : Nat → Nat) (store : StoreFun) (ty : List Char)
    (f i pos L c : Nat) (kw : Option Bool) (st : SaveState) (sid : Nat)
    (args : List (List Char)) (h : L ≤ cfg.lenMax)
    (hs : store i (some (makeRandomKey cfg rnd pos L)) (some true) = InsRes.integrityError args)
    (hcl : keyCollArgs args = false) :
    saveLoop cfg rnd store ty (f + 1) i pos L c kw st sid =
      some ⟨Outcome.raised args, ⟨some (makeRandomKey cfg rnd pos L), st.retryCount⟩,
        [Event.savepoint sid, Event.insert (some (makeRandomKey cfg rnd pos L)) (some true)]⟩ := by
  simp only [saveLoop]
  rw [if_pos h, hs]
  simp [hcl]

theorem saveLoop_coll_grow (cfg : Config) (rnd : Nat → Nat) (store : StoreFun) (ty : List Char)
    (f i pos L c : Nat) (kw : Option Bool) (st : SaveState) (sid : Nat)
    (args : List (List Char)) (h : L ≤ cfg.lenMax)
    (hs : store i (some (makeRandomKey cfg rnd pos L)) (some true) = InsRes.integrityError args)
    (hcl : keyCollArgs args = true) (hgrow : c + 1 = L) :
    saveLoop cfg rnd store ty (f + 1) i pos L c kw st sid =
      Option.map (fun r : RunResult =>
          ⟨r.outcome, r.st,
            Event.savepoint sid :: Event.insert (some (makeRandomKey cfg rnd pos L)) (some true) ::
              Event.rollbackSp sid :: r.events⟩)
        (saveLoop cfg rnd store ty f (i + 1) (pos + L) (L + 1) 0 (some true)
          ⟨some (makeRandomKey cfg rnd pos L), st.retryCount + 1⟩ (sid + 1)) := by
  simp only [saveLoop]
  rw [if_pos h, hs]
  simp only [hcl, if_true]
  have hb : (c + 1 == L) = true := by simpa using hgrow
  rw [hb, if_pos rfl]
  cases saveLoop cfg rnd store ty f (i + 1) (pos + L) (L + 1) 0 (some true)
      ⟨some (makeRandomKey cfg rnd pos L), st.retryCount + 1⟩ (sid + 1) <;> rfl

theorem saveLoop_coll_stay (cfg : Config) (rnd : Nat → Nat) (store : StoreFun) (ty : List Char)
    (f i pos L c : Nat) (kw : Option Bool) (st : SaveState) (sid : Nat)
    (args : List (List Char)) (h : L ≤ cfg.lenMax)
    (hs : store i (some (makeRandomKey cfg rnd pos L)) (some true) = InsRes.integrityError args)
    (hcl : keyCollArgs args = true) (hstay : c + 1 ≠ L) :
    saveLoop cfg rnd store ty (f + 1) i pos L c kw st sid =
      Option.map (fun r : RunResult =>
          ⟨r.outcome, r.st,
            Event.savepoint sid :: Event.insert (some (makeRandomKey cfg rnd pos L)) (some true) ::
              Event.rollbackSp sid :: r.events⟩)
        (saveLoop cfg rnd store ty f (i + 1) (pos + L) L (c + 1) (some true)
          ⟨some (makeRandomKey cfg rnd pos L), st.retryCount + 1⟩ (sid + 1)) := by
  simp only [saveLoop]
  rw [if_pos h, hs]
  simp only [hcl, if_true]
  have hb : (c + 1 == L) = false := by simpa using hstay
  rw [hb, if_neg (by simp)]
  cases saveLoop cfg rnd store ty f (i + 1) (pos + L) L (c + 1) (some true)
      ⟨some (makeRandomKey cfg rnd pos L), st.retryCount + 1⟩ (sid + 1) <;> rfl

end RPM

namespace RPM

/-! ### Runs under persistent key-column collisions -/

/-- Characterization of the allocation loop against a store that reports a
key-column uniqueness violation on every attempt: from length `L` with `c`
collisions already counted there, the loop spends the whole remaining
budget `budgetFrom lenMax L c`, generating one key of the scheduled length
per attempt, then exhausts with the id cleared and the retry counter grown
by the number of attempts. -/
theorem collideLoop (cfg : Config) (rnd : Nat → Nat) (store : StoreFun) (ty : List Char)
    (hst : alwaysColl store) :
    ∀ fuel L c i pos kw st sid, 1 ≤ L → c < L →
      (budgetFrom cfg.lenMax L c).length < fuel →
      ∃ r, saveLoop cfg rnd store ty fuel i pos L c kw st sid = some r ∧
        r.outcome = Outcome.exhausted [exhaustMsg ty] ∧
        r.st.id = none ∧
        r.st.retryCount = st.retryCount + (budgetFrom cfg.lenMax L c).length ∧
        insertLens r.events = (budgetFrom cfg.lenMax L c).map
          (fun n => cfg.keyPre.length + n + cfg.keySuf.length) ∧
        countInserts r.events = (budgetFrom cfg.lenMax L c).length := by
  intro fuel
  induction fuel with
  | zero =>
    intro L c i pos kw st sid _ _ hfuel
    exact absurd hfuel (by omega)
  | succ f ih =>
    intro L c i pos kw st sid hL hc hfuel
    by_cases hLM : L ≤ cfg.lenMax
    · obtain ⟨args, hs, hcl⟩ := hst i (some (makeRandomKey cfg rnd pos L)) (some true)
      have hkeylen := makeRandomKey_length cfg rnd pos L hL
      by_cases hgrow : c + 1 = L
      · have hbud := budgetFrom_cons_grow cfg.lenMax L c hLM hgrow
        obtain ⟨r, hrec, hout, hid, hretry, hlens, hcount⟩ :=
          ih (L + 1) 0 (i + 1) (pos + L) (some true)
            ⟨some (makeRandomKey cfg rnd pos L), st.retryCount + 1⟩ (sid + 1)
            (by omega) (by omega) (by rw [hbud] at hfuel; simp at hfuel; omega)
        refine ⟨⟨r.outcome, r.st,
          Event.savepoint sid :: Event.insert (some (makeRandomKey cfg rnd pos L)) (some true) ::
            Event.rollbackSp sid :: r.events⟩, ?_, ?_, ?_, ?_, ?_, ?_⟩
        · rw [saveLoop_coll_grow cfg rnd store ty f i pos L c kw st sid args hLM hs hcl hgrow,
            hrec]
          rfl
        · exact hout
        · exact hid
        · simp only [hbud]
          simp only [List.length_cons] at hretry ⊢
          omega
        · simp only [hbud, List.map_cons]
          simp only [insertLens_savepoint, insertLens_insert, insertLens_rollbackSp]
          rw [hlens, hkeylen]
        · simp only [hbud, List.length_cons]
          simp only [countInserts_savepoint, countInserts_insert, countInserts_rollbackSp]
          omega
      · have hbud := budgetFrom_cons_stay cfg.lenMax L c hLM (by omega)
        obtain ⟨r, hrec, hout, hid, hretry, hlens, hcount⟩ :=
          ih L (c + 1) (i + 1) (pos + L) (some true)
            ⟨some (makeRandomKey cfg rnd pos L), st.retryCount + 1⟩ (sid + 1)
            hL (by omega) (by rw [hbud] at hfuel; simp at hfuel; omega)
        refine ⟨⟨r.outcome, r.st,
          Event.savepoint sid :: Event.insert (some (makeRandomKey cfg rnd pos L)) (some true) ::
            Event.rollbackSp sid :: r.events⟩, ?_, ?_, ?_, ?_, ?_, ?_⟩
        · rw [saveLoop_coll_stay cfg rnd store ty f i pos L c kw st sid args hLM hs hcl hgrow,
            hrec]
          rfl
        · exact hout
        · exact hid
        · simp only [hbud]
          simp only [List.length_cons] at hretry ⊢
          omega
        · simp only [hbud, List.map_cons]
          simp only [insertLens_savepoint, insertLens_insert, insertLens_rollbackSp]
          rw [hlens, hkeylen]
        · simp only [hbud, List.length_cons]
          simp only [countInserts_savepoint, countInserts_insert, countInserts_rollbackSp]
          omega
    · have hbud := budgetFrom_stop cfg.lenMax L c (by omega)
      refine ⟨⟨Outcome.exhausted [exhaustMsg ty], ⟨none, st.retryCount⟩, []⟩,
        saveLoop_exhaust cfg rnd store ty f i pos L c kw st sid (by omega),
        rfl, rfl, ?_, ?_, ?_⟩
      · simp [hbud]
      · simp [hbud]
      · simp [hbud]

end RPM

namespace RPM

/-- Invariants of every terminating allocation-loop run, over an arbitrary
store: the trace is well scoped with no enclosing-transaction rollback, the
retry counter grows from its entry value by exactly the number of savepoint
rollbacks, every insert is issued with `force_insert = True`, exhaustion
clears the id and raises the type-naming message, and success leaves the id
equal to a freshly generated key of an in-range length. -/
theorem loopRun (cfg : Config) (rnd : Nat → Nat) (store : StoreFun) (ty : List Char) :
    ∀ fuel i pos L c kw st sid r,
      saveLoop cfg rnd store ty fuel i pos L c kw st sid = some r →
      wellScoped r.events = true ∧
      Event.rollbackEnclosing ∉ r.events ∧
      st.retryCount ≤ r.st.retryCount ∧
      countRb r.events = r.st.retryCount - st.retryCount ∧
      (∀ k f, Event.insert k f ∈ r.events → f = some true) ∧
      (∀ args, r.outcome = Outcome.exhausted args → r.st.id = none ∧ args = [exhaustMsg ty]) ∧
      (cfg.lenMin ≤ L → r.outcome = Outcome.ok →
        ∃ n p, cfg.lenMin ≤ n ∧ n ≤ cfg.lenMax ∧ r.st.id = some (makeRandomKey cfg rnd p n)) := by
  intro fuel
  induction fuel with
  | zero =>
    intro i pos L c kw st sid r heq
    simp [saveLoop] at heq
  | succ f ih =>
    intro i pos L c kw st sid r heq
    by_cases hLM : L ≤ cfg.lenMax
    · rcases hs : store i (some (makeRandomKey cfg rnd pos L)) (some true) with _ | args
      · rw [saveLoop_ok cfg rnd store ty f i pos L c kw st sid hLM hs] at heq
        injection heq with heq
        subst heq
        refine ⟨rfl, by simp, Nat.le_refl _, by simp, ?_, ?_, ?_⟩
        · intro k fl hmem
          rcases List.mem_cons.mp hmem with h | hmem2
          · exact Event.noConfusion h
          · rcases List.mem_cons.mp hmem2 with h | h3
            · injection h with h1 h2
            · exact absurd h3 (List.not_mem_nil _)
        · intro args h
          exact absurd h (by simp)
        · intro hL0 _
          exact ⟨L, pos, hL0, hLM, rfl⟩
      · by_cases hcl : keyCollArgs args = true
        · by_cases hgrow : c + 1 = L
          · rw [saveLoop_coll_grow cfg rnd store ty f i pos L c kw st sid args hLM hs hcl
              hgrow] at heq
            rcases hrec : saveLoop cfg rnd store ty f (i + 1) (pos + L) (L + 1) 0 (some true)
                ⟨some (makeRandomKey cfg rnd pos L), st.retryCount + 1⟩ (sid + 1) with _ | r'
            · rw [hrec] at heq
              simp at heq
            · rw [hrec] at heq
              simp only [Option.map_some'] at heq
              obtain ⟨hws, hmem, hle, hcnt, hforce, hexh, hok⟩ := ih _ _ _ _ _ _ _ _ hrec
              injection heq with heq
              subst heq
              refine ⟨?_, ?_, ?_, ?_, ?_, ?_, ?_⟩
              · rw [wellScoped_block]
                exact hws
              · intro h
                rcases List.mem_cons.mp h with h | h2
                · exact Event.noConfusion h
                · rcases List.mem_cons.mp h2 with h | h3
                  · exact Event.noConfusion h
                  · rcases List.mem_cons.mp h3 with h | h4
                    · exact Event.noConfusion h
                    · exact hmem h4
              · simp only at hle ⊢
                omega
              · simp only [countRb_savepoint, countRb_insert, countRb_rollbackSp]
                simp only at hle hcnt ⊢
                omega
              · intro k fl hmem2
                rcases List.mem_cons.mp hmem2 with h | hmem3
                · exact Event.noConfusion h
                · rcases List.mem_cons.mp hmem3 with h | hmem4
                  · injection h with h1 h2
                  · rcases List.mem_cons.mp hmem4 with h | h5
                    · exact Event.noConfusion h
                    · exact hforce k fl h5
              · exact hexh
              · intro hL0 hout
                exact hok (by omega) hout
          · rw [saveLoop_coll_stay cfg rnd store ty f i pos L c kw st sid args hLM hs hcl
              hgrow] at heq
            rcases hrec : saveLoop cfg rnd store ty f (i + 1) (pos + L) L (c + 1) (some true)
                ⟨some (makeRandomKey cfg rnd pos L), st.retryCount + 1⟩ (sid + 1) with _ | r'
            · rw [hrec] at heq
              simp at heq
            · rw [hrec] at heq
              simp only [Option.map_some'] at heq
              obtain ⟨hws, hmem, hle, hcnt, hforce, hexh, hok⟩ := ih _ _ _ _ _ _ _ _ hrec
              injection heq with heq
              subst heq
              refine ⟨?_, ?_, ?_, ?_, ?_, ?_, ?_⟩
              · rw [wellScoped_block]
                exact hws
              · intro h
                rcases List.mem_cons.mp h with h | h2
                · exact Event.noConfusion h
                · rcases List.mem_cons.mp h2 with h | h3
                  · exact Event.noConfusion h
                  · rcases List.mem_cons.mp h3 with h | h4
                    · exact Event.noConfusion h
                    · exact hmem h4
              · simp only at hle ⊢
                omega
              · simp only [countRb_savepoint, countRb_insert, countRb_rollbackSp]
                simp only at hle hcnt ⊢
                omega
              · intro k fl hmem2
                rcases List.mem_cons.mp hmem2 with h | hmem3
                · exact Event.noConfusion h
                · rcases List.mem_cons.mp hmem3 with h | hmem4
                  · injection h with h1 h2
                  · rcases List.mem_cons.mp hmem4 with h | h5
                    · exact Event.noConfusion h
                    · exact hforce k fl h5
              · exact hexh
              · intro hL0 hout
                exact hok hL0 hout
        · rw [saveLoop_fatal cfg rnd store ty f i pos L c kw st sid args hLM hs
            (by simpa using hcl)] at heq
          injection heq with heq
          subst heq
          refine ⟨rfl, by simp, Nat.le_refl _, by simp, ?_, ?_, ?_⟩
          · intro k fl hmem
            rcases List.mem_cons.mp hmem with h | hmem2
            · exact Event.noConfusion h
            · rcases List.mem_cons.mp hmem2 with h | h3
              · injection h with h1 h2
              · exact absurd h3 (List.not_mem_nil _)
          · intro args2 h
            exact absurd h (by simp)
          · intro _ h
            exact absurd h (by simp)
    · rw [saveLoop_exhaust cfg rnd store ty f i pos L c kw st sid (by omega)] at heq
      injection heq with heq
      subst heq
      refine ⟨rfl, by simp, Nat.le_refl _, by simp, ?_, ?_, ?_⟩
      · intro k fl hmem
        exact absurd hmem (by simp)
      · intro args h
        injection h with h
        exact ⟨rfl, h.symm⟩
      · intro _ h
        exact absurd h (by simp)

end RPM

namespace RPM

/-- Characterization of the allocation loop when the store reports
key-column collisions on the first `d` attempts and then fails with an
`IntegrityError` that is not classified as a key-column uniqueness
violation: the loop re-raises that failure right after the attempt that
produced it — the trace ends at that insert, with `d` rollbacks for the `d`
collisions and none for the failing attempt (every rollback names a
savepoint older than the failing attempt's), and the record keeps the
failing candidate key. -/
theorem fatalLoop (cfg : Config) (rnd : Nat → Nat) (store : StoreFun) (ty : List Char)
    (fatalArgs : List (List Char)) (hfc : keyCollArgs fatalArgs = false) :
    ∀ fuel d L c i pos kw st sid,
      1 ≤ L → c < L →
      d < (budgetFrom cfg.lenMax L c).length →
      d < fuel →
      (∀ n k f, n < i + d → ∃ args, store n k f = InsRes.integrityError args ∧
        keyCollArgs args = true) →
      (∀ k f, store (i + d) k f = InsRes.integrityError fatalArgs) →
      ∃ r es k, saveLoop cfg rnd store ty fuel i pos L c kw st sid = some r ∧
        r.outcome = Outcome.raised fatalArgs ∧
        r.events = es ++ [Event.savepoint (sid + d), Event.insert (some k) (some true)] ∧
        r.st.id = some k ∧
        countInserts r.events = d + 1 ∧
        countRb r.events = d ∧
        (∀ s, Event.rollbackSp s ∈ r.events → s < sid + d) := by
  intro fuel
  induction fuel with
  | zero =>
    intro d L c i pos kw st sid _ _ _ hdf _ _
    exact absurd hdf (by omega)
  | succ f ih =>
    intro d L c i pos kw st sid hL hc hdb hdf hcoll hfat
    have hLM : L ≤ cfg.lenMax := by
      by_contra hx
      rw [budgetFrom_stop cfg.lenMax L c (by omega)] at hdb
      simp at hdb
    cases d with
    | zero =>
      have hs := hfat (some (makeRandomKey cfg rnd pos L)) (some true)
      rw [Nat.add_zero] at hs
      refine ⟨⟨Outcome.raised fatalArgs,
        ⟨some (makeRandomKey cfg rnd pos L), st.retryCount⟩,
        [Event.savepoint sid, Event.insert (some (makeRandomKey cfg rnd pos L)) (some true)]⟩,
        [], makeRandomKey cfg rnd pos L,
        saveLoop_fatal cfg rnd store ty f i pos L c kw st sid fatalArgs hLM hs hfc,
        rfl, by simp, rfl, by simp, by simp, ?_⟩
      intro s hmem
      rcases List.mem_cons.mp hmem with h | hmem2
      · exact Event.noConfusion h
      · rcases List.mem_cons.mp hmem2 with h | h3
        · exact Event.noConfusion h
        · exact absurd h3 (List.not_mem_nil _)
    | succ d' =>
      obtain ⟨args, hs, hcl⟩ := hcoll i (some (makeRandomKey cfg rnd pos L)) (some true)
        (by omega)
      have hcoll' : ∀ n k fl, n < (i + 1) + d' → ∃ a, store n k fl = InsRes.integrityError a ∧
          keyCollArgs a = true := by
        intro n k fl hn
        exact hcoll n k fl (by omega)
      have hfat' : ∀ k fl, store ((i + 1) + d') k fl = InsRes.integrityError fatalArgs := by
        intro k fl
        have e : i + 1 + d' = i + (d' + 1) := by omega
        rw [e]
        exact hfat k fl
      by_cases hgrow : c + 1 = L
      · have hbud := budgetFrom_cons_grow cfg.lenMax L c hLM hgrow
        obtain ⟨r', es', k', hrec, hout, hev, hid, hci, hcr, hbound⟩ :=
          ih d' (L + 1) 0 (i + 1) (pos + L) (some true)
            ⟨some (makeRandomKey cfg rnd pos L), st.retryCount + 1⟩ (sid + 1)
            (by omega) (by omega)
            (by rw [hbud] at hdb; simp at hdb; omega) (by omega) hcoll' hfat'
        refine ⟨⟨r'.outcome, r'.st,
          Event.savepoint sid :: Event.insert (some (makeRandomKey cfg rnd pos L)) (some true) ::
            Event.rollbackSp sid :: r'.events⟩,
          Event.savepoint sid :: Event.insert (some (makeRandomKey cfg rnd pos L)) (some true) ::
            Event.rollbackSp sid :: es', k', ?_, hout, ?_, hid, ?_, ?_, ?_⟩
        · rw [saveLoop_coll_grow cfg rnd store ty f i pos L c kw st sid args hLM hs hcl hgrow,
            hrec]
          rfl
        · simp only [List.cons_append]
          rw [hev]
          have e : sid + 1 + d' = sid + (d' + 1) := by omega
          rw [e]
        · simp only [countInserts_savepoint, countInserts_insert, countInserts_rollbackSp]
          omega
        · simp only [countRb_savepoint, countRb_insert, countRb_rollbackSp]
          omega
        · intro s hmem
          rcases List.mem_cons.mp hmem with h | hmem2
          · exact Event.noConfusion h
          · rcases List.mem_cons.mp hmem2 with h | hmem3
            · exact Event.noConfusion h
            · rcases List.mem_cons.mp hmem3 with h | hmem4
              · injection h with h1
                omega
              · have := hbound s hmem4
                omega
      · have hbud := budgetFrom_cons_stay cfg.lenMax L c hLM (by omega)
        obtain ⟨r', es', k', hrec, hout, hev, hid, hci, hcr, hbound⟩ :=
          ih d' L (c + 1) (i + 1) (pos + L) (some true)
            ⟨some (makeRandomKey cfg rnd pos L), st.retryCount + 1⟩ (sid + 1)
            hL (by omega)
            (by rw [hbud] at hdb; simp at hdb; omega) (by omega) hcoll' hfat'
        refine ⟨⟨r'.outcome, r'.st,
          Event.savepoint sid :: Event.insert (some (makeRandomKey cfg rnd pos L)) (some true) ::
            Event.rollbackSp sid :: r'.events⟩,
          Event.savepoint sid :: Event.insert (some (makeRandomKey cfg rnd pos L)) (some true) ::
            Event.rollbackSp sid :: es', k', ?_, hout, ?_, hid, ?_, ?_, ?_⟩
        · rw [saveLoop_coll_stay cfg rnd store ty f i pos L c kw st sid args hLM hs hcl hgrow,
            hrec]
          rfl
        · simp only [List.cons_append]
          rw [hev]
          have e : sid + 1 + d' = sid + (d' + 1) := by omega
          rw [e]
        · simp only [countInserts_savepoint, countInserts_insert, countInserts_rollbackSp]
          omega
        · simp only [countRb_savepoint, countRb_insert, countRb_rollbackSp]
          omega
        · intro s hmem
          rcases List.mem_cons.mp hmem with h | hmem2
          · exact Event.noConfusion h
          · rcases List.mem_cons.mp hmem2 with h | hmem3
            · exact Event.noConfusion h
            · rcases List.mem_cons.mp hmem3 with h | hmem4
              · injection h with h1
                omega
              · have := hbound s hmem4
                omega

end RPM

namespace RPM

/-! ### Small helper lemmas for the claim theorems -/

theorem save_notTruthy (cfg : Config) (rnd : Nat → Nat) (store : StoreFun) (ty : List Char)
    (kw : Option Bool) (st : SaveState) (fuel : Nat) (hid : truthyId st.id = false) :
    save cfg rnd store ty kw st fuel =
      saveLoop cfg rnd store ty fuel 0 0 cfg.lenMin 0 kw st 0 := by
  unfold save
  rw [if_neg (by simp [hid])]

theorem collStore_alwaysColl : alwaysColl collStore :=
  fun _ _ _ => ⟨[sqliteMark], rfl, by decide⟩

theorem choiceOf_mem (chars : List Char) (r : Nat) (h : chars ≠ []) :
    choiceOf chars r ∈ chars := by
  unfold choiceOf
  have hlen : 0 < chars.length := List.length_pos.mpr h
  have hlt : r % chars.length < chars.length := Nat.mod_lt _ hlen
  rw [List.getD_eq_getElem chars 'A' hlt]
  exact List.getElem_mem hlt

end RPM

namespace RPM

/-- C1: for every configuration satisfying the spec's configuration
invariant (`1 ≤ minKeyLen`, `minKeyLen ≤ maxKeyLen`), if every insert
attempt fails with a key-column uniqueness violation, the allocation
performs exactly `sum_{k=minKeyLen}^{maxKeyLen} k` insert attempts and then
raises the keyspace-exhausted error. -/
theorem c1_exhaust_attempt_count (cfg : Config) (rnd : Nat → Nat) (store : StoreFun)
    (ty : List Char) (kw : Option Bool) (st : SaveState) (fuel : Nat)
    (hst : alwaysColl store)
    (hmin : 1 ≤ cfg.lenMin) (hmax : cfg.lenMin ≤ cfg.lenMax)
    (hid : truthyId st.id = false)
    (hfuel : (List.range' cfg.lenMin (cfg.lenMax + 1 - cfg.lenMin)).sum < fuel) :
    ∃ r, save cfg rnd store ty kw st fuel = some r ∧
      countInserts r.events = (List.range' cfg.lenMin (cfg.lenMax + 1 - cfg.lenMin)).sum ∧
      r.outcome = Outcome.exhausted [exhaustMsg ty] := by
  have hb := budgetFrom_length cfg.lenMax cfg.lenMin
  obtain ⟨r, hr, hout, _, _, _, hcount⟩ :=
    collideLoop cfg rnd store ty hst fuel cfg.lenMin 0 0 0 kw st 0 hmin (by omega) (by omega)
  refine ⟨r, ?_, ?_, hout⟩
  · rw [save_notTruthy cfg rnd store ty kw st fuel hid]
    exact hr
  · rw [hcount, hb]

/-- C1 witness: the default configuration (lengths 5..9) against the
always-colliding store performs 5+6+7+8+9 = 35 attempts, then exhausts. -/
theorem c1_witness :
    ∃ r, save defaultConfig (fun n => n) collStore ("Item".toList) none (initRecord none) 36 =
        some r ∧
      countInserts r.events =
        (List.range' defaultConfig.lenMin (defaultConfig.lenMax + 1 - defaultConfig.lenMin)).sum ∧
      r.outcome = Outcome.exhausted [exhaustMsg ("Item".toList)] :=
  c1_exhaust_attempt_count defaultConfig (fun n => n) collStore ("Item".toList) none
    (initRecord none) 36 collStore_alwaysColl (by decide) (by decide) (by decide) (by decide)

/-- C2: under persistent key-column collisions the attempt budget at each
key length equals that key length: the generated keys have, in order, `k`
bodies of length `k` for each `k` from `minKeyLen` to `maxKeyLen` (each key
totalling `len(prefix) + k + len(suffix)` characters), so the length grows
by one exactly after `currentKeyLen` consecutive collisions. -/
theorem c2_attempt_schedule (cfg : Config) (rnd : Nat → Nat) (store : StoreFun)
    (ty : List Char) (kw : Option Bool) (st : SaveState) (fuel : Nat)
    (hst : alwaysColl store) (hmin : 1 ≤ cfg.lenMin)
    (hid : truthyId st.id = false)
    (hfuel :
      (repeatBudget (List.range' cfg.lenMin (cfg.lenMax + 1 - cfg.lenMin))).length < fuel) :
    ∃ r, save cfg rnd store ty kw st fuel = some r ∧
      insertLens r.events =
        (repeatBudget (List.range' cfg.lenMin (cfg.lenMax + 1 - cfg.lenMin))).map
          (fun n => cfg.keyPre.length + n + cfg.keySuf.length) := by
  have he := budgetFrom_zero_eq cfg.lenMax (cfg.lenMax + 1 - cfg.lenMin) cfg.lenMin rfl
  obtain ⟨r, hr, _, _, _, hlens, _⟩ :=
    collideLoop cfg rnd store ty hst fuel cfg.lenMin 0 0 0 kw st 0 hmin (by omega)
      (by rw [he]; exact hfuel)
  refine ⟨r, ?_, ?_⟩
  · rw [save_notTruthy cfg rnd store ty kw st fuel hid]
    exact hr
  · rw [hlens, he]

/-- C2 witness: with the default configuration (`minKeyLen = 5`) the
schedule is five 5-character bodies, then six 6-character bodies, and so
on; in particular the 6th attempt (index 5) generates a 6-character body,
not a 7th 5-character one. -/
theorem c2_witness :
    (∃ r, save defaultConfig (fun n => n) collStore ("Item".toList) none (initRecord none) 36 =
        some r ∧
      insertLens r.events =
        (repeatBudget (List.range'
            defaultConfig.lenMin (defaultConfig.lenMax + 1 - defaultConfig.lenMin))).map
          (fun n => defaultConfig.keyPre.length + n + defaultConfig.keySuf.length)) ∧
    (repeatBudget (List.range'
        defaultConfig.lenMin (defaultConfig.lenMax + 1 - defaultConfig.lenMin))).take 6 =
      [5, 5, 5, 5, 5, 6] := by
  constructor
  · exact c2_attempt_schedule defaultConfig (fun n => n) collStore ("Item".toList) none
      (initRecord none) 36 collStore_alwaysColl (by decide) (by decide) (by decide)
  · decide

end RPM

namespace RPM

/-- C9 counterexample: `_retry_count` is instance state set in `__init__`,
not reset by `save`.  With lengths 1..1 and persistent collisions, a first
`save` on a fresh record exhausts after one collision, leaving the state
`⟨none, 1⟩`; a second `save` on that very state performs one further
collision but ends with the counter at 2 — so the second allocation
started with `totalRetries = 1`, not 0, and the state is shared across
successive allocation calls, contradicting the claim. -/
theorem c9_counterexample :
    (save cexConfig (fun n => n) collStore ("Item".toList) none (initRecord none) 2).map
        (fun r => r.st) = some ⟨none, 1⟩ ∧
    (save cexConfig (fun n => n) collStore ("Item".toList) none ⟨none, 1⟩ 2).map
        (fun r => r.st.retryCount) = some 2 := by
  exact ⟨by decide, by decide⟩

/-- C9 amended: `currentKeyLen` and `attemptsAtCurrentLen` are per-call
(every allocation runs the same schedule starting at `minKeyLen` with a
zero collision counter, independently of the record's prior history), but
`totalRetries` (`_retry_count`) is per-record-instance state initialized in
`__init__`: an allocation adds its collision count to the counter's entry
value rather than starting from 0, so it is shared across successive
`save` calls on the same instance (diagnostic only, never persisted to the
store). -/
theorem c9_amended_per_call_state (cfg : Config) (rnd : Nat → Nat) (store : StoreFun)
    (ty : List Char) (kw : Option Bool) (retry0 : Nat) (id0 : Option (List Char)) (fuel : Nat)
    (hst : alwaysColl store) (hmin : 1 ≤ cfg.lenMin)
    (hid : truthyId id0 = false)
    (hfuel : (budgetFrom cfg.lenMax cfg.lenMin 0).length < fuel) :
    ∃ r, save cfg rnd store ty kw ⟨id0, retry0⟩ fuel = some r ∧
      r.st.retryCount = retry0 + (budgetFrom cfg.lenMax cfg.lenMin 0).length ∧
      insertLens r.events = (budgetFrom cfg.lenMax cfg.lenMin 0).map
        (fun n => cfg.keyPre.length + n + cfg.keySuf.length) := by
  obtain ⟨r, hr, _, _, hretry, hlens, _⟩ :=
    collideLoop cfg rnd store ty hst fuel cfg.lenMin 0 0 0 kw ⟨id0, retry0⟩ 0 hmin
      (by omega) hfuel
  refine ⟨r, ?_, hretry, hlens⟩
  rw [save_notTruthy cfg rnd store ty kw ⟨id0, retry0⟩ fuel hid]
  exact hr

/-- C9 amended witness: an allocation entered with `_retry_count = 7` runs
the fresh per-call schedule and ends with the counter at `7 + 1`. -/
theorem c9_amended_witness :
    ∃ r, save cexConfig (fun n => n) collStore ("Item".toList) none ⟨none, 7⟩ 2 = some r ∧
      r.st.retryCount = 7 + (budgetFrom cexConfig.lenMax cexConfig.lenMin 0).length ∧
      insertLens r.events = (budgetFrom cexConfig.lenMax cexConfig.lenMin 0).map
        (fun n => cexConfig.keyPre.length + n + cexConfig.keySuf.length) :=
  c9_amended_per_call_state cexConfig (fun n => n) collStore ("Item".toList) none 7 none 2
    collStore_alwaysColl (by decide) (by decide) (by decide)

/-- C6: a record entering `save` with a non-empty key skips allocation
entirely: the call is exactly one direct insert with the caller's `kwargs`
(no savepoint, no key generation, no rollback, no retry logic — for any
fuel, even 0), and the outcome mirrors the store's answer, whatever it is. -/
theorem c6_pass_through (cfg : Config) (rnd : Nat → Nat) (store : StoreFun) (ty : List Char)
    (kw : Option Bool) (st : SaveState) (fuel : Nat) (h : truthyId st.id = true) :
    save cfg rnd store ty kw st fuel =
      some ⟨(match store 0 st.id kw with
             | InsRes.ok => Outcome.ok
             | InsRes.integrityError args => Outcome.raised args), st,
            [Event.insert st.id kw]⟩ := by
  unfold save
  rw [if_pos h]
  cases hs : store 0 st.id kw <;> rfl

/-- C6 witness: a record that already carries the key `"k0"` is passed
straight to the store with the caller's `force_insert = False`; the store's
non-key failure is surfaced unchanged after that single insert, with zero
fuel given to the retry machinery. -/
theorem c6_witness :
    save defaultConfig (fun n => n) fatalStore ("Item".toList) (some false)
        ⟨some ("k0".toList), 3⟩ 0 =
      some ⟨Outcome.raised [otherMsg], ⟨some ("k0".toList), 3⟩,
            [Event.insert (some ("k0".toList)) (some false)]⟩ :=
  c6_pass_through defaultConfig (fun n => n) fatalStore ("Item".toList) (some false)
    ⟨some ("k0".toList), 3⟩ 0 (by decide)

end RPM

namespace RPM

/-- C5: whenever allocation ends in keyspace exhaustion, the record's key
field has been set back to unset before the error is raised — never left
holding an unsaved candidate — and the raised message names the record's
type (the type name is a suffix of the message). -/
theorem c5_exhaustion_clears_id (cfg : Config) (rnd : Nat → Nat) (store : StoreFun)
    (ty : List Char) (kw : Option Bool) (st : SaveState) (fuel : Nat) (r : RunResult)
    (args : List (List Char))
    (h : save cfg rnd store ty kw st fuel = some r)
    (hout : r.outcome = Outcome.exhausted args) :
    r.st.id = none ∧ args = [exhaustMsg ty] ∧ ty <:+ exhaustMsg ty := by
  unfold save at h
  by_cases hid : truthyId st.id = true
  · rw [if_pos hid] at h
    rcases hs : store 0 st.id kw with _ | a
    · rw [hs] at h
      injection h with h
      subst h
      exact absurd hout (by simp)
    · rw [hs] at h
      injection h with h
      subst h
      exact absurd hout (by simp)
  · rw [if_neg hid] at h
    obtain ⟨hidn, hargs⟩ :=
      (loopRun cfg rnd store ty fuel 0 0 cfg.lenMin 0 kw st 0 r h).2.2.2.2.2.1 args hout
    exact ⟨hidn, hargs, List.suffix_append _ _⟩

/-- C5 witness: the 1..1 configuration under persistent collisions
exhausts with the id cleared and the type-naming message. -/
theorem c5_witness :
    ∃ r args,
      save cexConfig (fun n => n) collStore ("Item".toList) none (initRecord none) 2 = some r ∧
      r.outcome = Outcome.exhausted args ∧
      r.st.id = none ∧ args = [exhaustMsg ("Item".toList)] ∧
      ("Item".toList) <:+ exhaustMsg ("Item".toList) := by
  refine ⟨_, _, rfl, rfl, ?_⟩
  exact c5_exhaustion_clears_id cexConfig (fun n => n) collStore ("Item".toList) none
    (initRecord none) 2 _ _ rfl rfl

/-- C7: every terminating `save` call has a well-scoped trace — each
key-column collision performs exactly one rollback, aimed at the savepoint
opened for that same attempt, the number of savepoint rollbacks equals the
number of collisions counted into `_retry_count`, and the enclosing
transaction is never rolled back. -/
theorem c7_rollback_scoping (cfg : Config) (rnd : Nat → Nat) (store : StoreFun)
    (ty : List Char) (kw : Option Bool) (st : SaveState) (fuel : Nat) (r : RunResult)
    (h : save cfg rnd store ty kw st fuel = some r) :
    wellScoped r.events = true ∧
    Event.rollbackEnclosing ∉ r.events ∧
    countRb r.events = r.st.retryCount - st.retryCount ∧
    st.retryCount ≤ r.st.retryCount := by
  unfold save at h
  by_cases hid : truthyId st.id = true
  · rw [if_pos hid] at h
    have hfin : r.st = st ∧ r.events = [Event.insert st.id kw] := by
      rcases hs : store 0 st.id kw with _ | a
      · rw [hs] at h
        injection h with h
        subst h
        exact ⟨rfl, rfl⟩
      · rw [hs] at h
        injection h with h
        subst h
        exact ⟨rfl, rfl⟩
    obtain ⟨hst2, hev⟩ := hfin
    rw [hev, hst2]
    refine ⟨rfl, ?_, by simp, Nat.le_refl _⟩
    intro hmem
    rcases List.mem_cons.mp hmem with hx | hx
    · exact Event.noConfusion hx
    · exact absurd hx (List.not_mem_nil _)
  · rw [if_neg hid] at h
    obtain ⟨hws, hmem, hle, hcnt, _, _, _⟩ :=
      loopRun cfg rnd store ty fuel 0 0 cfg.lenMin 0 kw st 0 r h
    exact ⟨hws, hmem, hcnt, hle⟩

/-- C7 witness: lengths 1..2 with a collision on the first attempt and
success on the second: the rollback count equals the one collision and the
trace is well scoped, with no enclosing rollback. -/
theorem c7_witness :
    ∃ r, save c7Config (fun n => n) collThenOkStore ("Item".toList) none (initRecord none) 3 =
        some r ∧
      wellScoped r.events = true ∧
      Event.rollbackEnclosing ∉ r.events ∧
      countRb r.events = r.st.retryCount - (initRecord none).retryCount ∧
      (initRecord none).retryCount ≤ r.st.retryCount := by
  refine ⟨_, rfl, ?_⟩
  exact c7_rollback_scoping c7Config (fun n => n) collThenOkStore ("Item".toList) none
    (initRecord none) 3 _ rfl

/-- C8: every insert attempt made for a freshly generated candidate key is
issued with `force_insert = True` — also when the caller passed a
conflicting value for that flag. -/
theorem c8_force_insert (cfg : Config) (rnd : Nat → Nat) (store : StoreFun)
    (ty : List Char) (kw : Option Bool) (st : SaveState) (fuel : Nat) (r : RunResult)
    (hid : truthyId st.id = false)
    (h : save cfg rnd store ty kw st fuel = some r) :
    ∀ k f, Event.insert k f ∈ r.events → f = some true := by
  rw [save_notTruthy cfg rnd store ty kw st fuel hid] at h
  exact (loopRun cfg rnd store ty fuel 0 0 cfg.lenMin 0 kw st 0 r h).2.2.2.2.1

/-- C8 witness: a caller passing `force_insert = False` still gets the
allocation insert issued with `force_insert = True`. -/
theorem c8_witness :
    ∃ r, save defaultConfig (fun n => n) okStore ("Item".toList) (some false)
        (initRecord none) 1 = some r ∧
      ∀ k f, Event.insert k f ∈ r.events → f = some true := by
  refine ⟨_, rfl, ?_⟩
  exact c8_force_insert defaultConfig (fun n => n) okStore ("Item".toList) (some false)
    (initRecord none) 1 _ (by decide) rfl

end RPM

namespace RPM

/-- C3: every successful allocation leaves the record holding
`prefix ++ first :: middle ++ suffix` where `first` is a symbol of the
letters-only alphabet, `middle` consists of `n - 1` symbols of the
alphanumeric alphabet for some `n` with `minKeyLen ≤ n ≤ maxKeyLen`, and
the key's total length is `len(prefix) + n + len(suffix)`. -/
theorem c3_key_shape (cfg : Config) (rnd : Nat → Nat) (store : StoreFun)
    (ty : List Char) (kw : Option Bool) (st : SaveState) (fuel : Nat) (r : RunResult)
    (hmin : 1 ≤ cfg.lenMin)
    (hfc : cfg.firstChars ≠ []) (hrc : cfg.restChars ≠ [])
    (hid : truthyId st.id = false)
    (h : save cfg rnd store ty kw st fuel = some r)
    (hout : r.outcome = Outcome.ok) :
    ∃ n first mid, cfg.lenMin ≤ n ∧ n ≤ cfg.lenMax ∧
      r.st.id = some (cfg.keyPre ++ first :: mid ++ cfg.keySuf) ∧
      first ∈ cfg.firstChars ∧
      mid.length = n - 1 ∧ (∀ ch ∈ mid, ch ∈ cfg.restChars) ∧
      (cfg.keyPre ++ first :: mid ++ cfg.keySuf).length =
        cfg.keyPre.length + n + cfg.keySuf.length := by
  rw [save_notTruthy cfg rnd store ty kw st fuel hid] at h
  obtain ⟨n, p, hn1, hn2, hidkey⟩ :=
    (loopRun cfg rnd store ty fuel 0 0 cfg.lenMin 0 kw st 0 r h).2.2.2.2.2.2
      (Nat.le_refl _) hout
  refine ⟨n, choiceOf cfg.firstChars (rnd p),
    (List.range (n - 1)).map (fun t => choiceOf cfg.restChars (rnd (p + 1 + t))),
    hn1, hn2, hidkey, choiceOf_mem cfg.firstChars (rnd p) hfc, by simp, ?_, ?_⟩
  · intro ch hch
    simp only [List.mem_map] at hch
    obtain ⟨t, _, ht⟩ := hch
    rw [← ht]
    exact choiceOf_mem cfg.restChars _ hrc
  · simp only [List.length_append, List.length_cons, List.length_map, List.length_range]
    omega

/-- C3 witness: an immediately successful allocation with the default
configuration yields a key of the documented shape. -/
theorem c3_witness :
    ∃ r, save defaultConfig (fun n => n) okStore ("Item".toList) none (initRecord none) 1 =
        some r ∧
      ∃ n first mid, defaultConfig.lenMin ≤ n ∧ n ≤ defaultConfig.lenMax ∧
        r.st.id = some (defaultConfig.keyPre ++ first :: mid ++ defaultConfig.keySuf) ∧
        first ∈ defaultConfig.firstChars ∧
        mid.length = n - 1 ∧ (∀ ch ∈ mid, ch ∈ defaultConfig.restChars) ∧
        (defaultConfig.keyPre ++ first :: mid ++ defaultConfig.keySuf).length =
          defaultConfig.keyPre.length + n + defaultConfig.keySuf.length := by
  refine ⟨_, rfl, ?_⟩
  exact c3_key_shape defaultConfig (fun n => n) okStore ("Item".toList) none (initRecord none)
    1 _ (by decide) (by decide) (by decide) (by decide) rfl rfl

/-- C4: an insert failure that is not classified as a key-column
uniqueness violation — after `d` prior key-column collisions — is re-raised
unchanged immediately: exactly `d + 1` insert attempts happen (the failing
one last, nothing after it), with exactly `d` rollbacks for the `d`
collisions and no further key generation or retrying. -/
theorem c4_fatal_short_circuit (cfg : Config) (rnd : Nat → Nat) (store : StoreFun)
    (ty : List Char) (kw : Option Bool) (st : SaveState) (fuel d : Nat)
    (fatalArgs : List (List Char))
    (hfc : keyCollArgs fatalArgs = false)
    (hmin : 1 ≤ cfg.lenMin)
    (hid : truthyId st.id = false)
    (hd : d < (budgetFrom cfg.lenMax cfg.lenMin 0).length)
    (hfuel : d < fuel)
    (hcoll : ∀ n k f, n < d →
      ∃ args, store n k f = InsRes.integrityError args ∧ keyCollArgs args = true)
    (hfat : ∀ k f, store d k f = InsRes.integrityError fatalArgs) :
    ∃ r es k, save cfg rnd store ty kw st fuel = some r ∧
      r.outcome = Outcome.raised fatalArgs ∧
      r.events = es ++ [Event.savepoint d, Event.insert (some k) (some true)] ∧
      countInserts r.events = d + 1 ∧
      countRb r.events = d := by
  obtain ⟨r, es, k, hr, hout, hev, _, hci, hcr, _⟩ :=
    fatalLoop cfg rnd store ty fatalArgs hfc fuel d cfg.lenMin 0 0 0 kw st 0 hmin
      (by omega) hd hfuel
      (fun n k f hn => hcoll n k f (by omega))
      (fun k f => by rw [Nat.zero_add]; exact hfat k f)
  rw [Nat.zero_add] at hev
  refine ⟨r, es, k, ?_, hout, hev, hci, hcr⟩
  rw [save_notTruthy cfg rnd store ty kw st fuel hid]
  exact hr

/-- C4 witness: a store failing with a non-key uniqueness violation on the
very first attempt makes allocation raise immediately after exactly one
attempt, with no rollback and no retry. -/
theorem c4_witness :
    ∃ r es k,
      save defaultConfig (fun n => n) fatalStore ("Item".toList) none (initRecord none) 1 =
        some r ∧
      r.outcome = Outcome.raised [otherMsg] ∧
      r.events = es ++ [Event.savepoint 0, Event.insert (some k) (some true)] ∧
      countInserts r.events = 1 ∧
      countRb r.events = 0 :=
  c4_fatal_short_circuit defaultConfig (fun n => n) fatalStore ("Item".toList) none
    (initRecord none) 1 0 [otherMsg] (by decide) (by decide) (by decide) (by decide)
    (by decide) (fun n k f hn => absurd hn (by omega)) (fun k f => rfl)

/-- C10: a fatal (non-key-column) integrity failure during allocation is
re-raised while the record still holds the candidate key that failed — the
id is not cleared as in the exhaustion case — and the savepoint opened for
that failing attempt is never rolled back. -/
theorem c10_fatal_keeps_candidate (cfg : Config) (rnd : Nat → Nat) (store : StoreFun)
    (ty : List Char) (kw : Option Bool) (st : SaveState) (fuel d : Nat)
    (fatalArgs : List (List Char))
    (hfc : keyCollArgs fatalArgs = false)
    (hmin : 1 ≤ cfg.lenMin)
    (hid : truthyId st.id = false)
    (hd : d < (budgetFrom cfg.lenMax cfg.lenMin 0).length)
    (hfuel : d < fuel)
    (hcoll : ∀ n k f, n < d →
      ∃ args, store n k f = InsRes.integrityError args ∧ keyCollArgs args = true)
    (hfat : ∀ k f, store d k f = InsRes.integrityError fatalArgs) :
    ∃ r es k, save cfg rnd store ty kw st fuel = some r ∧
      r.outcome = Outcome.raised fatalArgs ∧
      r.st.id = some k ∧
      r.events = es ++ [Event.savepoint d, Event.insert (some k) (some true)] ∧
      Event.rollbackSp d ∉ r.events := by
  obtain ⟨r, es, k, hr, hout, hev, hidk, _, _, hbd⟩ :=
    fatalLoop cfg rnd store ty fatalArgs hfc fuel d cfg.lenMin 0 0 0 kw st 0 hmin
      (by omega) hd hfuel
      (fun n k f hn => hcoll n k f (by omega))
      (fun k f => by rw [Nat.zero_add]; exact hfat k f)
  rw [Nat.zero_add] at hev
  refine ⟨r, es, k, ?_, hout, hidk, hev, ?_⟩
  · rw [save_notTruthy cfg rnd store ty kw st fuel hid]
    exact hr
  · intro hmem
    have := hbd d hmem
    omega

/-- C10 witness: one key collision, then a non-key failure: the record
keeps the second (failing) candidate, and the failing attempt's savepoint
(id 1) is never rolled back. -/
theorem c10_witness :
    ∃ r es k,
      save defaultConfig (fun n => n) collThenFatalStore ("Item".toList) none
          (initRecord none) 2 = some r ∧
      r.outcome = Outcome.raised [otherMsg] ∧
      r.st.id = some k ∧
      r.events = es ++ [Event.savepoint 1, Event.insert (some k) (some true)] ∧
      Event.rollbackSp 1 ∉ r.events :=
  c10_fatal_keeps_candidate defaultConfig (fun n => n) collThenFatalStore ("Item".toList)
    none (initRecord none) 2 1 [otherMsg] (by decide) (by decide) (by decide) (by decide)
    (by decide)
    (by
      intro n k f hn
      have hn0 : n = 0 := by omega
      subst hn0
      exact ⟨[sqliteMark], rfl, by decide⟩)
    (fun k f => rfl)

end RPM
